import Mathlib

/-!
Verification of the CAN-bus-log-to-CSV converter (CANBusLogs_2_CSV.py).

This file gives a shallow embedding of the converter core: the DBC message
identifier classification, the bit-level signal decoder, the composite
match key, the row assembler loop, and the CL2000 per-line semantic action.
Each definition is translated directly from the Python source; the comments
cite the source lines. Python integers become Nat or Int, Python floats
(only ever produced by multiplying a decoded integer by the scale factor
and adding the offset) are modelled as rationals, byte strings become
List Nat, and Python exceptions are modelled as Option or Except results.
Spec-level restatements (used on the right-hand side of refinement
theorems) are prefixed with spec_.
-/

/-- DBCSignal dataclass (source lines 61-73). -/
structure DBCSignal where
  name : String
  start_bit : Nat
  size : Nat
  is_little_endian : Bool
  is_signed : Bool
  factor : ℚ
  offset : ℚ
  minimum : ℚ
  maximum : ℚ
  unit : String
deriving DecidableEq

/-- DBCMessage dataclass (source lines 76-85). The signals dict is modelled
as an association list in insertion order; extended is the Python int
produced at source line 128. -/
structure DBCMessage where
  can_id : Nat
  extended : Nat
  name : String
  dlc : Nat
  signals : List (String × DBCSignal)
  counter : Nat
  pulse : Bool
deriving DecidableEq

/-- CANMessage dataclass (source lines 49-58); extended is the Python int
stored by the log parser. -/
structure CANMessage where
  timestamp : String
  direction : String
  channel : Nat
  can_id : Nat
  extended : Nat
  dlc : Nat
  data : List Nat
deriving DecidableEq

/-- Configuration object (source lines 41-47): the two feature flags plus
the outcome of the signal-name-mode comparison used at source lines 450
and 513 (both sites test the same condition, so one flag models both). -/
structure setups where
  signal_name_bare : Bool
  msg_counter_signal : Bool
  msg_pulser_signal : Bool
deriving DecidableEq

/-! ## Decimal representation of integers (Python str on a nonnegative int),
used by the composite match key built at source lines 430 and 489. -/

/-- Digits of n in base 10, most significant first, as characters; fuel-based
so that it is structurally recursive and kernel-computable. -/
def decDigitsAux : Nat → Nat → List Char
  | _, 0 => []
  | 0, _ + 1 => []
  | fuel + 1, n + 1 =>
    decDigitsAux fuel ((n + 1) / 10) ++ [Nat.digitChar ((n + 1) % 10)]

/-- Python str of a nonnegative int: its decimal representation. -/
def natRepr (n : Nat) : String :=
  String.mk (if n = 0 then ['0'] else decDigitsAux n n)

/-- Composite match key, source line 430 and source line 489:
str(can_id) + bar + str(extended) + bar + str(dlc). -/
def message_key (can_id extended dlc : Nat) : String :=
  natRepr can_id ++ "|" ++ natRepr extended ++ "|" ++ natRepr dlc

/-- Key list built over the whole catalog before the frame loop
(source lines 426-432). -/
def dbc_parser_messages_ID (msgs : List DBCMessage) : List String :=
  msgs.map (fun m => message_key m.can_id m.extended m.dlc)

/-- Membership test at source line 491. -/
def definition_match (keys : List String) (f : CANMessage) : Bool :=
  decide (message_key f.can_id f.extended f.dlc ∈ keys)

/-- Identifier handling of a DBC message line (source lines 127-131):
extended = int(can_id greater than 2047), and an id with bit 31 set is
masked to its low 29 bits before being stored. Returns
(stored id, extended flag). -/
def parse_message_id (raw : Nat) : Nat × Nat :=
  let extended : Nat := if 2047 < raw then 1 else 0
  let can_id : Nat := if 0x80000000 ≤ raw then raw &&& 0x1FFFFFFF else raw
  (can_id, extended)

/-! ## Code-point lexicographic string order (Python sorted on str),
used for the column list at source line 455. -/

/-- Lexicographic comparison of character lists by code point, the order
Python uses to compare strings. -/
def charsLe : List Char → List Char → Bool
  | [], _ => true
  | _ :: _, [] => false
  | a :: as, b :: bs =>
    if a.toNat < b.toNat then true
    else if b.toNat < a.toNat then false
    else charsLe as bs

/-- Python string order as a propositional relation. -/
def pyle (a b : String) : Prop := charsLe a.data b.data = true

instance : DecidableRel pyle := fun _ _ => inferInstanceAs (Decidable (_ = true))

/-! ## SignalDecoder (source lines 366-406). -/

/-- int.from_bytes(data, byteorder=little) over a list of byte values. -/
def int_from_bytes_le : List Nat → Nat
  | [] => 0
  | b :: bs => b + 256 * int_from_bytes_le bs

/-- Right padding with zero bytes, source line 377: in Python the pad count
8 - len(data) collapses to an empty byte string when data is longer than
8 bytes, exactly as Nat subtraction does here. -/
def pad_to_8 (data : List Nat) : List Nat :=
  data ++ List.replicate (8 - data.length) 0

/-- SignalDecoder.extract_signal_value (source lines 369-406). The except
handler at source lines 404-406 catches every exception raised inside the
try block and returns None; the two raising operations are the right shift
by a negative amount (source line 393, when the Motorola translation at
source line 389 is negative) and the shift by size - 1 = -1 (source
line 396, reached only for a signed signal of size 0); both are modelled
as none branches. -/
def extract_signal_value (data : List Nat) (signal : DBCSignal) : Option ℚ :=
  if data.length = 0 then
    none
  else
    let data_int := int_from_bytes_le (pad_to_8 data)
    let start_bit : Int :=
      if signal.is_little_endian then
        (signal.start_bit : Int)
      else
        ((signal.start_bit : Int) / 8) * 8 + (7 - (signal.start_bit : Int) % 8)
          - (signal.size : Int) + 1
    if start_bit < 0 then
      none
    else if signal.is_signed && signal.size == 0 then
      none
    else
      let mask : Nat := 2 ^ signal.size - 1
      let raw_value : Nat := (data_int >>> start_bit.toNat) &&& mask
      let raw_int : Int :=
        if signal.is_signed && (raw_value &&& (1 <<< (signal.size - 1)) != 0) then
          (raw_value : Int) - 2 ^ signal.size
        else
          (raw_value : Int)
      some ((raw_int : ℚ) * signal.factor + signal.offset)

/-! ## Spec-side restatements of section 4.3 of the specification, written
from the words of the specification and compared against
extract_signal_value by the refinement theorems below. -/

/-- Spec: right-pad the payload with zero bytes to exactly 8 bytes,
interpret as an unsigned 64-bit integer in little-endian byte order. -/
def spec_u64 (data : List Nat) : Nat :=
  int_from_bytes_le (data ++ List.replicate (8 - data.length) 0) % 2 ^ 64

/-- Spec: extract size bits at the computed offset via shift-and-mask. -/
def spec_extract_bits (x start size : Nat) : Nat :=
  (x >>> start) &&& (2 ^ size - 1)

/-- Spec: if signed and the most-significant extracted bit is set, apply
two's-complement sign extension over the extracted width. -/
def spec_sign_extend (signed : Bool) (size raw : Nat) : Int :=
  if signed = true ∧ raw.testBit (size - 1) = true then (raw : Int) - 2 ^ size
  else (raw : Int)

/-- Spec: Motorola translation, byte = start_bit / 8,
bit_in_byte = start_bit mod 8,
effective_start = byte*8 + (7 - bit_in_byte) - size + 1. -/
def spec_effective_start (start_bit size : Nat) : Int :=
  ((start_bit : Int) / 8) * 8 + (7 - (start_bit : Int) % 8) - (size : Int) + 1

/-- Spec-side decoded physical value of a little-endian signal. -/
def spec_le_value (data : List Nat) (s : DBCSignal) : ℚ :=
  (spec_sign_extend s.is_signed s.size
    (spec_extract_bits (spec_u64 data) s.start_bit s.size) : ℚ) * s.factor + s.offset

/-! ## Column names and the output column set (source lines 408-412 and
442-459). -/

/-- get_pulser_name (source lines 408-409). -/
def get_pulser_name (DBC_message_name : String) : String :=
  "_" ++ DBC_message_name ++ "_Pulser"

/-- get_counter_name (source lines 411-412). -/
def get_counter_name (DBC_message_name : String) : String :=
  "_" ++ DBC_message_name ++ "_Counter"

/-- Column name of a signal (branch at source lines 450-453 and 513-516). -/
def signal_column_name (st : setups) (msg_name sig_name : String) : String :=
  if st.signal_name_bare then sig_name else msg_name ++ "." ++ sig_name

/-- Multiset of column names collected over the whole catalog
(source lines 443-453); the Python code accumulates them into a set, which
is modelled by taking dedup before sorting. -/
def collected_signal_names (st : setups) (msgs : List DBCMessage) : List String :=
  msgs.flatMap (fun m =>
    (if st.msg_counter_signal then [get_counter_name m.name] else []) ++
    (if st.msg_pulser_signal then [get_pulser_name m.name] else []) ++
    m.signals.map (fun p => signal_column_name st m.name p.1))

/-- Python sorted on a list of strings. -/
def pysorted (l : List String) : List String := l.insertionSort pyle

/-- all_signals = sorted(set(...)) at source line 455. -/
def all_signals (st : setups) (msgs : List DBCMessage) : List String :=
  pysorted (collected_signal_names st msgs).dedup

/-- csv_header (source line 459). -/
def csv_header (st : setups) (msgs : List DBCMessage) : List String :=
  "time" :: all_signals st msgs

/-! ## Row assembler (source lines 462-526). The Python row list is split
into the time cell (index 0, always a timestamp string) and the signal
cells (indices 1.., each None or a number), so an index i into the cell
list here corresponds to the Python index i + 1; the Python code adds the
same + 1 when it writes a cell. The counter and pulse values written by the
feature columns are numbers and live in the same Option cell type as
decoded signal values. -/

/-- One iteration of the frame loop (source lines 470-526), acting on the
catalog (whose counter and pulse fields are mutated in place in Python),
the current row cells and the rrow counter. Returns the state after the
frame; the emitted row is the frame timestamp paired with the new cells. -/
def process_frame (st : setups) (keys : List String) (sigs : List String)
    (msgs : List DBCMessage) (cells : List (Option ℚ)) (rrow : Nat)
    (f : CANMessage) : List DBCMessage × List (Option ℚ) × Nat :=
  -- source lines 471-475: a fresh all-None row while rrow = 0, else reuse
  let cells := if rrow = 0 then List.replicate sigs.length none else cells
  -- source lines 477-485: write 0 into the pulser column of every message
  -- whose pulse flag is set, then clear every pulse flag
  let cells :=
    if st.msg_pulser_signal then
      msgs.foldl (fun cs m =>
        if m.pulse then cs.set (sigs.indexOf (get_pulser_name m.name)) (some 0)
        else cs) cells
    else cells
  let msgs :=
    if st.msg_pulser_signal then msgs.map (fun m => { m with pulse := false })
    else msgs
  -- source lines 488-491: composite key membership test
  if definition_match keys f then
    -- source line 492: dict lookup by identifier alone; the keys of the
    -- Python dict are unique, so find? locates the entry; the none branch
    -- is unreachable because a matching key implies a present identifier
    match msgs.find? (fun m => m.can_id == f.can_id) with
    | none => (msgs, cells, rrow)
    | some dbc_message =>
      -- source lines 494-495: increment counter, set pulse
      let msgs := msgs.map (fun m =>
        if m.can_id == f.can_id then
          { m with counter := m.counter + 1, pulse := true }
        else m)
      -- source lines 497-502: counter column (reads the counter after the
      -- increment, hence counter + 1)
      let cells :=
        if st.msg_counter_signal then
          cells.set (sigs.indexOf (get_counter_name dbc_message.name))
            (some ((dbc_message.counter + 1 : Nat) : ℚ))
        else cells
      -- source lines 504-509: pulse column
      let cells :=
        if st.msg_pulser_signal then
          cells.set (sigs.indexOf (get_pulser_name dbc_message.name)) (some 1)
        else cells
      -- source lines 511-523: decode every signal of the matched message;
      -- rrow increments per attempted signal, a cell is written only when
      -- the decoded value is not None
      let step := dbc_message.signals.foldl (fun acc p =>
        let signal_name_extended := signal_column_name st dbc_message.name p.1
        if signal_name_extended ∈ sigs then
          let value := extract_signal_value f.data p.2
          let rr := acc.2 + 1
          match value with
          | some v => (acc.1.set (sigs.indexOf signal_name_extended) (some v), rr)
          | none => (acc.1, rr)
        else acc) (cells, rrow)
      (msgs, step.1, step.2)
  else
    (msgs, cells, rrow)

/-- The frame loop (source lines 470-526): one emitted row per frame, in
order, each row being the frame timestamp (the time column is rewritten
from the current frame at source lines 473 and 475) plus the cell list
after processing the frame. -/
def rows_loop (st : setups) (keys sigs : List String) :
    List DBCMessage → List (Option ℚ) → Nat → List CANMessage →
    List (String × List (Option ℚ))
  | _, _, _, [] => []
  | msgs, cells, rrow, f :: fs =>
    let r := process_frame st keys sigs msgs cells rrow f
    (f.timestamp, r.2.1) :: rows_loop st keys sigs r.1 r.2.1 r.2.2 fs

/-- convert_log_to_csv row emission (source lines 415-526), starting from
the catalog as loaded (keys precomputed at source lines 426-432, column
list at source lines 443-459, loop state initially rrow = 0 with no row
allocated). -/
def convert_rows (st : setups) (msgs0 : List DBCMessage)
    (frames : List CANMessage) : List (String × List (Option ℚ)) :=
  rows_loop st (dbc_parser_messages_ID msgs0) (all_signals st msgs0) msgs0 [] 0 frames

/-! ## Per-line semantic action of the CL2000 log format
(source lines 319-358). -/

/-- Python str.strip / whitespace test. -/
def is_py_space (c : Char) : Bool :=
  c = ' ' || c = '\t' || c = '\n' || c = '\r' || c = '\x0b' || c = '\x0c'

/-- Python str.strip() on both ends. -/
def pystrip (s : String) : String :=
  String.mk (((s.data.dropWhile is_py_space).reverse.dropWhile is_py_space).reverse)

/-- Value of a nonempty all-digit character list. -/
def decimal_digits? (cs : List Char) : Option Nat :=
  if cs ≠ [] ∧ cs.all Char.isDigit then
    some (cs.foldl (fun a c => a * 10 + (c.toNat - 48)) 0)
  else none

/-- Python int(s) on a decimal string literal: surrounding whitespace is
stripped, an optional sign precedes one or more digits; anything else
raises ValueError, modelled as none. -/
def pyint? (s : String) : Option Int :=
  match (pystrip s).data with
  | '+' :: rest => (decimal_digits? rest).map (fun n => (n : Int))
  | '-' :: rest => (decimal_digits? rest).map (fun n => -(n : Int))
  | rest => (decimal_digits? rest).map (fun n => (n : Int))

/-- Hexadecimal digit test. -/
def is_hex_char (c : Char) : Bool :=
  ('0' ≤ c && c ≤ '9') || ('a' ≤ c && c ≤ 'f') || ('A' ≤ c && c ≤ 'F')

/-- Value of one hexadecimal digit (0 on other characters; only applied to
characters the regex guarantees to be hexadecimal). -/
def hex_digit_val (c : Char) : Nat :=
  if '0' ≤ c && c ≤ '9' then c.toNat - 48
  else if 'a' ≤ c && c ≤ 'f' then c.toNat - 87
  else if 'A' ≤ c && c ≤ 'F' then c.toNat - 55
  else 0

/-- Python int(s, 16) on a string the regex guarantees to be nonempty
hexadecimal (source line 329). -/
def int_base16 (cs : List Char) : Nat :=
  cs.foldl (fun a c => a * 16 + hex_digit_val c) 0

/-- Python bytes.fromhex (source line 335, after spaces are removed):
pairs of hexadecimal digits; an odd-length or non-hexadecimal string
raises ValueError, modelled as none. -/
def bytes_fromhex? : List Char → Option (List Nat)
  | [] => some []
  | [_] => none
  | c1 :: c2 :: rest =>
    if is_hex_char c1 && is_hex_char c2 then
      (bytes_fromhex? rest).map (fun bs => (hex_digit_val c1 * 16 + hex_digit_val c2) :: bs)
    else none

/-- Days per month with the Gregorian leap rule, for the strptime range
check. -/
def days_in_month (y m : Nat) : Nat :=
  if m = 2 then (if y % 4 = 0 ∧ (y % 100 ≠ 0 ∨ y % 400 = 0) then 29 else 28)
  else if m = 4 ∨ m = 6 ∨ m = 9 ∨ m = 11 then 30 else 31

/-- Zero-padded decimal fields of the output timestamp format. -/
def pad2 (n : Nat) : String :=
  if n < 10 then "0" ++ natRepr n else natRepr n

/-- Three-digit zero-padded field. -/
def pad3 (n : Nat) : String :=
  if n < 10 then "00" ++ natRepr n
  else if n < 100 then "0" ++ natRepr n
  else natRepr n

/-- Four-digit zero-padded field. -/
def pad4 (n : Nat) : String :=
  if n < 10 then "000" ++ natRepr n
  else if n < 100 then "00" ++ natRepr n
  else if n < 1000 then "0" ++ natRepr n
  else natRepr n

/-- strftime with TIME_STAMP_OUTPUT (source line 28) followed by dropping
the last three characters (source line 323): day.month.year
hour:minute:second.millisecond, the microsecond field truncated back to
the three millisecond digits the CL2000 timestamp carries. -/
def strftime_day_first (y mo d h mi s ms : Nat) : String :=
  pad2 d ++ "." ++ pad2 mo ++ "." ++ pad4 y ++ " " ++ pad2 h ++ ":" ++ pad2 mi
    ++ ":" ++ pad2 s ++ "." ++ pad3 ms

/-- datetime.strptime of the CL2000 timestamp (source line 322) followed by
the output formatting (source line 323). The regex fixes the digit counts,
so the seven numeric fields are taken directly; strptime raises ValueError
on out-of-range fields, modelled as none. -/
def cl2000_timestamp? (y mo d h mi s ms : Nat) : Option String :=
  if 1 ≤ y ∧ y ≤ 9999 ∧ 1 ≤ mo ∧ mo ≤ 12 ∧ 1 ≤ d ∧ d ≤ days_in_month y mo
      ∧ h ≤ 23 ∧ mi ≤ 59 ∧ s ≤ 59 ∧ ms ≤ 999 then
    some (strftime_day_first y mo d h mi s ms)
  else none

/-- Common frame construction shared by the three formats (source lines
345-358): the DLC mismatch test at source line 346 only prints a warning
(returned here as the Bool), and the frame is appended regardless, carrying
the actual payload bytes and the declared DLC. -/
def finalize_frame (timestamp direction : String) (channel can_id extended dlc : Nat)
    (data : List Nat) : CANMessage × Bool :=
  (⟨timestamp, direction, channel, can_id, extended, dlc, data⟩,
    decide (data.length ≠ dlc))

/-- Semantic action for a line matched by the CL2000 grammar (source lines
319-337 and 345-358), on the capture groups: the seven numeric timestamp
fields (group 1, digit counts fixed by the regex), the message type field
(group 2), the identifier field (group 3, guaranteed hexadecimal), and the
data field (group 4). Python exceptions escaping the per-line code are
modelled as Except.error; there is no handler around this code in
parse_file, so an error aborts the conversion run. -/
def cl2000_process (y mo d h mi s ms : Nat) (typ idstr datastr : String) :
    Except String (CANMessage × Bool) :=
  match cl2000_timestamp? y mo d h mi s ms with
  | none => Except.error "ValueError: strptime"
  | some timestamp =>
    -- source line 327: extended = int(match.group(2))
    match pyint? typ with
    | none => Except.error "ValueError: invalid literal for int"
    | some ext =>
      let can_id := int_base16 idstr.data
      let data_str := pystrip datastr
      let dlc := data_str.data.length / 2
      match bytes_fromhex? data_str.data with
      | none => Except.error "ValueError: non-hexadecimal or odd-length string"
      | some data_bytes =>
        Except.ok (finalize_frame timestamp "Rx" 0 can_id ext.toNat dlc data_bytes)

/-! ## Helper lemmas: the decimal key encoding is injective. -/

theorem decDigitsAux_eq (fuel n : Nat) (h : n ≤ fuel) :
    decDigitsAux fuel n = ((Nat.digits 10 n).map Nat.digitChar).reverse := by
  induction fuel generalizing n with
  | zero =>
    interval_cases n
    simp [decDigitsAux]
  | succ fuel ih =>
    cases n with
    | zero => simp [decDigitsAux]
    | succ k =>
      have hd : Nat.digits 10 (k + 1) = (k + 1) % 10 :: Nat.digits 10 ((k + 1) / 10) :=
        Nat.digits_def' (by norm_num) (Nat.succ_pos k)
      have hlt : (k + 1) / 10 ≤ fuel := by
        have := Nat.div_lt_self (Nat.succ_pos k) (by norm_num : (1 : Nat) < 10)
        omega
      rw [decDigitsAux, ih _ hlt, hd]
      simp

theorem digitChar_inj_lt : ∀ a < 10, ∀ b < 10, Nat.digitChar a = Nat.digitChar b → a = b := by
  decide

theorem digitChar_ne_bar : ∀ d < 10, Nat.digitChar d ≠ '|' := by decide

theorem map_digitChar_inj (l1 l2 : List Nat) (h1 : ∀ x ∈ l1, x < 10)
    (h2 : ∀ x ∈ l2, x < 10) (h : l1.map Nat.digitChar = l2.map Nat.digitChar) :
    l1 = l2 := by
  induction l1 generalizing l2 with
  | nil => cases l2 <;> simp_all
  | cons x xs ih =>
    cases l2 with
    | nil => simp_all
    | cons y ys =>
      simp only [List.map_cons, List.cons.injEq] at h
      have hx : x = y := digitChar_inj_lt x (h1 x (by simp)) y (h2 y (by simp)) h.1
      have hxs : xs = ys := ih ys (fun z hz => h1 z (List.mem_cons_of_mem x hz))
        (fun z hz => h2 z (List.mem_cons_of_mem y hz)) h.2
      simp [hx, hxs]

theorem natRepr_data (n : Nat) :
    (natRepr n).data =
      if n = 0 then ['0'] else ((Nat.digits 10 n).map Nat.digitChar).reverse := by
  unfold natRepr
  by_cases h : n = 0
  · simp [h]
  · simp only [if_neg h]
    exact decDigitsAux_eq n n le_rfl

theorem rev_map_digits_ne_zero_char (n : Nat) (hn : n ≠ 0)
    (h : ((Nat.digits 10 n).map Nat.digitChar).reverse = ['0']) : False := by
  have hlen : (Nat.digits 10 n).length = 1 := by
    have := congrArg List.length h
    simpa using this
  obtain ⟨d, hdig⟩ : ∃ d, Nat.digits 10 n = [d] := by
    cases hdg : Nat.digits 10 n with
    | nil => simp [hdg] at hlen
    | cons a t =>
      cases t with
      | nil => exact ⟨a, rfl⟩
      | cons b t2 => simp [hdg] at hlen
  rw [hdig] at h
  simp at h
  have hd10 : d < 10 := Nat.digits_lt_base (by norm_num) (by rw [hdig]; simp)
  have hd0 : d = 0 := digitChar_inj_lt d hd10 0 (by norm_num) (by simpa using h)
  have hofd := Nat.ofDigits_digits 10 n
  rw [hdig, hd0] at hofd
  simp [Nat.ofDigits] at hofd
  exact hn hofd.symm

theorem natRepr_inj (m n : Nat) (h : natRepr m = natRepr n) : m = n := by
  have hd : (natRepr m).data = (natRepr n).data := by rw [h]
  rw [natRepr_data, natRepr_data] at hd
  by_cases hm : m = 0 <;> by_cases hn : n = 0
  · omega
  · simp only [if_pos hm, if_neg hn] at hd
    exact absurd hd.symm (fun hh => (rev_map_digits_ne_zero_char n hn hh).elim)
  · simp only [if_neg hm, if_pos hn] at hd
    exact absurd hd (fun hh => (rev_map_digits_ne_zero_char m hm hh).elim)
  · simp only [if_neg hm, if_neg hn] at hd
    have hmap : (Nat.digits 10 m).map Nat.digitChar = (Nat.digits 10 n).map Nat.digitChar := by
      have := congrArg List.reverse hd
      simpa using this
    have hdig : Nat.digits 10 m = Nat.digits 10 n :=
      map_digitChar_inj _ _ (fun x hx => Nat.digits_lt_base (by norm_num) hx)
        (fun x hx => Nat.digits_lt_base (by norm_num) hx) hmap
    have := congrArg (Nat.ofDigits 10) hdig
    simpa [Nat.ofDigits_digits] using this

theorem natRepr_no_bar (n : Nat) : '|' ∉ (natRepr n).data := by
  rw [natRepr_data]
  by_cases h : n = 0
  · simp [h]
  · simp only [if_neg h, List.mem_reverse]
    intro hmem
    rw [List.mem_map] at hmem
    obtain ⟨d, hd, hchar⟩ := hmem
    exact digitChar_ne_bar d (Nat.digits_lt_base (by norm_num) hd) hchar

theorem sep_append_inj (b d : List Char) : ∀ (a c : List Char), '|' ∉ a → '|' ∉ c →
    a ++ '|' :: b = c ++ '|' :: d → a = c ∧ b = d := by
  intro a
  induction a with
  | nil =>
    intro c ha hc h
    cases c with
    | nil => simpa using h
    | cons y ys =>
      simp only [List.nil_append, List.cons_append, List.cons.injEq] at h
      exact absurd (h.1 ▸ List.mem_cons_self y ys) hc
  | cons x xs ih =>
    intro c ha hc h
    cases c with
    | nil =>
      simp only [List.cons_append, List.nil_append, List.cons.injEq] at h
      refine absurd ?_ ha
      rw [h.1]
      exact List.mem_cons_self '|' xs
    | cons y ys =>
      simp only [List.cons_append, List.cons.injEq] at h
      have hxs : '|' ∉ xs := fun hm => ha (List.mem_cons_of_mem x hm)
      have hys : '|' ∉ ys := fun hm => hc (List.mem_cons_of_mem y hm)
      have hr := ih ys hxs hys h.2
      exact ⟨by rw [h.1, hr.1], hr.2⟩

theorem message_key_data (a b c : Nat) :
    (message_key a b c).data =
      (natRepr a).data ++ '|' :: ((natRepr b).data ++ '|' :: (natRepr c).data) := by
  simp [message_key, String.data_append]

theorem message_key_inj (a1 b1 c1 a2 b2 c2 : Nat)
    (h : message_key a1 b1 c1 = message_key a2 b2 c2) :
    a1 = a2 ∧ b1 = b2 ∧ c1 = c2 := by
  have hd : (message_key a1 b1 c1).data = (message_key a2 b2 c2).data := by rw [h]
  rw [message_key_data, message_key_data] at hd
  have h1 := sep_append_inj _ _ _ _ (natRepr_no_bar a1) (natRepr_no_bar a2) hd
  have h2 := sep_append_inj _ _ _ _ (natRepr_no_bar b1) (natRepr_no_bar b2) h1.2
  refine ⟨natRepr_inj _ _ (String.ext h1.1), natRepr_inj _ _ (String.ext h2.1),
    natRepr_inj _ _ (String.ext h2.2)⟩

/-! ## Helper lemmas: pyle is a decidable linear order on strings. -/

theorem char_toNat_inj (a b : Char) (h : a.toNat = b.toNat) : a = b :=
  Char.ext (UInt32.ext h)

theorem charsLe_cons (x y : Char) (xs ys : List Char) :
    charsLe (x :: xs) (y :: ys) = true ↔
      (x.toNat < y.toNat ∨ (x.toNat = y.toNat ∧ charsLe xs ys = true)) := by
  simp only [charsLe]
  by_cases h1 : x.toNat < y.toNat
  · simp [h1]
  · by_cases h2 : y.toNat < x.toNat
    · simp [h1, h2]
      omega
    · have hxy : x.toNat = y.toNat := by omega
      simp [h1, h2, hxy]

theorem charsLe_total (a b : List Char) : charsLe a b = true ∨ charsLe b a = true := by
  induction a generalizing b with
  | nil => left; rfl
  | cons x xs ih =>
    cases b with
    | nil => right; rfl
    | cons y ys =>
      by_cases h1 : x.toNat < y.toNat
      · left
        simp [charsLe, h1]
      · by_cases h2 : y.toNat < x.toNat
        · right
          simp [charsLe, h1, h2]
        · rcases ih ys with h | h <;> [left; right] <;>
            simp [charsLe, h1, h2, h]

theorem charsLe_antisymm (a b : List Char) (h1 : charsLe a b = true)
    (h2 : charsLe b a = true) : a = b := by
  induction a generalizing b with
  | nil =>
    cases b with
    | nil => rfl
    | cons y ys => simp [charsLe] at h2
  | cons x xs ih =>
    cases b with
    | nil => simp [charsLe] at h1
    | cons y ys =>
      rw [charsLe_cons] at h1 h2
      have hx : x = y := by
        rcases h1 with h1 | ⟨he1, _⟩
        · rcases h2 with h2 | ⟨he2, _⟩
          · omega
          · exact (char_toNat_inj x y (by omega)).symm ▸ rfl
        · exact char_toNat_inj x y he1
      subst hx
      rcases h1 with h1 | ⟨_, hr1⟩
      · omega
      · rcases h2 with h2 | ⟨_, hr2⟩
        · omega
        · rw [ih ys hr1 hr2]

theorem charsLe_trans (a b c : List Char) (h1 : charsLe a b = true)
    (h2 : charsLe b c = true) : charsLe a c = true := by
  induction a generalizing b c with
  | nil => rfl
  | cons x xs ih =>
    cases b with
    | nil => simp [charsLe] at h1
    | cons y ys =>
      cases c with
      | nil => simp [charsLe] at h2
      | cons z zs =>
        rw [charsLe_cons] at h1 h2 ⊢
        rcases h1 with h1 | ⟨he1, hr1⟩
        · rcases h2 with h2 | ⟨he2, hr2⟩
          · left; omega
          · left; omega
        · rcases h2 with h2 | ⟨he2, hr2⟩
          · left; omega
          · right
            exact ⟨by omega, ih ys zs hr1 hr2⟩

instance : IsTotal String pyle := ⟨fun a b => charsLe_total a.data b.data⟩

instance : IsTrans String pyle := ⟨fun a b c => charsLe_trans a.data b.data c.data⟩

instance : IsAntisymm String pyle :=
  ⟨fun a b h1 h2 => String.ext (charsLe_antisymm a.data b.data h1 h2)⟩

/-! ## Helper lemmas for the signal decoder. -/

theorem int_from_bytes_le_lt (l : List Nat) (h : ∀ b ∈ l, b < 256) :
    int_from_bytes_le l < 256 ^ l.length := by
  induction l with
  | nil => simp [int_from_bytes_le]
  | cons b bs ih =>
    have hb : b < 256 := h b (by simp)
    have hbs := ih (fun x hx => h x (List.mem_cons_of_mem b hx))
    simp only [int_from_bytes_le, List.length_cons, pow_succ]
    calc b + 256 * int_from_bytes_le bs
        ≤ 255 + 256 * int_from_bytes_le bs := by omega
      _ < 256 * (int_from_bytes_le bs + 1) := by ring_nf; omega
      _ ≤ 256 * 256 ^ bs.length := Nat.mul_le_mul_left 256 hbs
      _ = 256 ^ bs.length * 256 := by ring

theorem pad_to_8_length (data : List Nat) (h : data.length ≤ 8) :
    (pad_to_8 data).length = 8 := by
  simp [pad_to_8]
  omega

theorem mem_pad_to_8 (data : List Nat) (b : Nat) (hb : b ∈ pad_to_8 data) :
    b ∈ data ∨ b = 0 := by
  simp [pad_to_8] at hb
  rcases hb with h | ⟨_, h⟩
  · exact Or.inl h
  · exact Or.inr h

theorem pad_to_8_long (data : List Nat) (h : 8 ≤ data.length) :
    pad_to_8 data = data := by
  simp [pad_to_8]
  omega

theorem testBit_iff_and_shift (raw k : Nat) :
    (raw &&& (1 <<< k) != 0) = true ↔ raw.testBit k = true := by
  rw [Nat.one_shiftLeft, Nat.and_two_pow]
  cases h : raw.testBit k <;> simp [h]

theorem spec_u64_eq_of_short (data : List Nat) (hlen : data.length ≤ 8)
    (hbytes : ∀ b ∈ data, b < 256) :
    spec_u64 data = int_from_bytes_le (pad_to_8 data) := by
  unfold spec_u64
  have heq : data ++ List.replicate (8 - data.length) 0 = pad_to_8 data := rfl
  rw [heq]
  apply Nat.mod_eq_of_lt
  have hb : ∀ b ∈ pad_to_8 data, b < 256 := by
    intro b hb
    rcases mem_pad_to_8 data b hb with h | h
    · exact hbytes b h
    · omega
  have hlt := int_from_bytes_le_lt _ hb
  rw [pad_to_8_length data hlen] at hlt
  simpa using hlt

/-- Shared unfolding of the non-degenerate branch of extract_signal_value:
whenever the payload is nonempty, the effective start bit (start_bit for a
little-endian signal, the Motorola translation otherwise) is nonnegative,
and the signal is not a signed zero-width signal, the result is the
shift-and-mask raw value, sign extended, scaled and offset. -/
theorem extract_signal_value_eq (data : List Nat) (s : DBCSignal) (eff : Int)
    (heff : eff = (if s.is_little_endian then (s.start_bit : Int)
      else spec_effective_start s.start_bit s.size))
    (hne : data.length ≠ 0) (hpos : 0 ≤ eff) (hdeg : s.is_signed = false ∨ 1 ≤ s.size) :
    extract_signal_value data s = some
      ((spec_sign_extend s.is_signed s.size
        (spec_extract_bits (int_from_bytes_le (pad_to_8 data)) eff.toNat s.size) : ℚ)
        * s.factor + s.offset) := by
  unfold extract_signal_value spec_extract_bits spec_sign_extend spec_effective_start at *
  rw [if_neg hne]
  have hstart : (if s.is_little_endian then (s.start_bit : Int)
      else ((s.start_bit : Int) / 8) * 8 + (7 - (s.start_bit : Int) % 8)
        - (s.size : Int) + 1) = eff := by rw [heff]
  rw [hstart]
  rw [if_neg (by omega : ¬ eff < 0)]
  have hdeg2 : ¬ (s.is_signed && s.size == 0) = true := by
    rcases hdeg with h | h
    · simp [h]
    · simp only [Bool.and_eq_true, beq_iff_eq]
      intro ⟨_, h0⟩
      omega
  rw [if_neg hdeg2]
  dsimp only
  set raw := (int_from_bytes_le (pad_to_8 data) >>> eff.toNat) &&& (2 ^ s.size - 1) with hraw
  by_cases hsig : s.is_signed = true ∧ raw.testBit (s.size - 1) = true
  · rw [if_pos (by
      simp only [Bool.and_eq_true, bne_iff_ne]
      refine ⟨hsig.1, ?_⟩
      have hb := (testBit_iff_and_shift raw (s.size - 1)).mpr hsig.2
      simpa using hb)]
    rw [if_pos hsig]
  · rw [if_neg (by
      simp only [Bool.and_eq_true, bne_iff_ne]
      intro ⟨ha, hb⟩
      apply hsig
      refine ⟨ha, ?_⟩
      have hb' : (raw &&& (1 <<< (s.size - 1)) != 0) = true := by simpa using hb
      exact (testBit_iff_and_shift raw (s.size - 1)).mp hb')]
    rw [if_neg hsig]

/-! ## Claim theorems: signal decoder. -/

/-- C1: for every non-empty payload (payloads carry 0-8 byte values per the
data model) and every little-endian signal descriptor (bit width at least 1
per the data model invariant), extract_signal_value returns
raw x factor + offset, where raw is obtained by right-padding the payload
with zero bytes to 8 bytes, reading it as an unsigned 64-bit little-endian
integer, extracting size bits starting at start_bit by shift-and-mask, and,
when the signal is signed and the most-significant extracted bit is set,
applying two's-complement sign extension over the extracted width. -/
theorem extract_signal_value_little_endian_spec (data : List Nat) (s : DBCSignal)
    (hle : s.is_little_endian = true) (hne : data.length ≠ 0) (hlen : data.length ≤ 8)
    (hbytes : ∀ b ∈ data, b < 256) (hsize : 1 ≤ s.size) :
    extract_signal_value data s = some (spec_le_value data s) := by
  have h := extract_signal_value_eq data s (s.start_bit : Int) (by rw [hle]; simp) hne
    (Int.ofNat_nonneg s.start_bit) (Or.inr hsize)
  rw [h]
  unfold spec_le_value
  rw [spec_u64_eq_of_short data hlen hbytes]
  simp [Int.toNat_ofNat]

/-- Witness for C1, the testable-property instance of the specification: a
little-endian unsigned 8-bit signal at start bit 0 with factor 2.0 and
offset 1.0 over payload 05 00 00 00 00 00 00 00 decodes to 11.0. -/
theorem extract_signal_value_little_endian_spec_witness :
    extract_signal_value [5, 0, 0, 0, 0, 0, 0, 0]
      ⟨"Sig", 0, 8, true, false, 2, 1, 0, 0, ""⟩ = some 11 := by
  have h := extract_signal_value_little_endian_spec [5, 0, 0, 0, 0, 0, 0, 0]
    ⟨"Sig", 0, 8, true, false, 2, 1, 0, 0, ""⟩ rfl (by decide) (by decide) (by decide)
    (by decide)
  rw [h]
  have hand : (5 : Nat) &&& 255 = 5 := by decide
  norm_num [spec_le_value, spec_u64, spec_extract_bits, spec_sign_extend,
    int_from_bytes_le, hand]

/-- Counterexample for C2: the claimed instance start_bit = 7, size = 8
gives effective_start = -7 under the translation formula the claim itself
states (and the code implements), not 0; on such a signal the decoder hits
the negative-shift exception path and returns an absent value instead of
extracting the first byte. -/
theorem motorola_start7_size8_counterexample :
    spec_effective_start 7 8 = -7 ∧
      extract_signal_value [171] ⟨"Sig", 7, 8, false, false, 1, 0, 0, 0, ""⟩ = none := by
  constructor
  · decide
  · rfl

/-- C2 (amended): for every big-endian (Motorola) signal descriptor, the
decoder computes the effective bit offset as
(start_bit / 8) * 8 + (7 - start_bit mod 8) - size + 1 (the definition
spec_effective_start) and, whenever that offset is nonnegative, extracts
size bits from there out of the little-endian-padded integer; start_bit = 7
with size = 8 yields offset -7, not 0, and decodes to an absent value. -/
theorem extract_signal_value_motorola_spec (data : List Nat) (s : DBCSignal)
    (hbe : s.is_little_endian = false) (hne : data.length ≠ 0) (hsize : 1 ≤ s.size)
    (hpos : 0 ≤ spec_effective_start s.start_bit s.size) :
    extract_signal_value data s = some
      ((spec_sign_extend s.is_signed s.size
        (spec_extract_bits (int_from_bytes_le (pad_to_8 data))
          (spec_effective_start s.start_bit s.size).toNat s.size) : ℚ)
        * s.factor + s.offset) :=
  extract_signal_value_eq data s (spec_effective_start s.start_bit s.size)
    (by rw [hbe]; simp) hne hpos (Or.inr hsize)

/-- Witness for the amended C2: a Motorola signal at start_bit = 0 with
size = 8 has effective start (0 / 8) * 8 + (7 - 0) - 8 + 1 = 0 and extracts
the full first byte. -/
theorem extract_signal_value_motorola_spec_witness :
    spec_effective_start 0 8 = 0 ∧
      extract_signal_value [171] ⟨"Sig", 0, 8, false, false, 1, 0, 0, 0, ""⟩ = some 171 := by
  have heff : spec_effective_start 0 8 = 0 := by decide
  refine ⟨heff, ?_⟩
  have h := extract_signal_value_motorola_spec [171]
    ⟨"Sig", 0, 8, false, false, 1, 0, 0, 0, ""⟩ rfl (by decide) (by decide)
    (by rw [heff])
  rw [h, heff]
  have hand : (171 : Nat) &&& 255 = 171 := by decide
  norm_num [spec_extract_bits, spec_sign_extend, int_from_bytes_le, pad_to_8, hand]

/-- C8: extract_signal_value is total; an empty payload gives an absent
result, the exceptions that the Python except handler can catch (negative
Motorola offset, signed zero-width signal) give an absent result, and every
other input gives a present value. -/
theorem extract_signal_value_total (data : List Nat) (s : DBCSignal) :
    (data = [] → extract_signal_value data s = none)
    ∧ (s.is_little_endian = false → spec_effective_start s.start_bit s.size < 0 →
        extract_signal_value data s = none)
    ∧ (s.is_signed = true → s.size = 0 → extract_signal_value data s = none)
    ∧ (data ≠ [] →
        (s.is_little_endian = true ∨ 0 ≤ spec_effective_start s.start_bit s.size) →
        (s.is_signed = false ∨ 1 ≤ s.size) →
        ∃ q, extract_signal_value data s = some q) := by
  refine ⟨?_, ?_, ?_, ?_⟩
  · intro h
    simp [extract_signal_value, h]
  · intro hbe hneg
    rw [spec_effective_start] at hneg
    by_cases hd : data.length = 0
    · simp [extract_signal_value, hd]
    · simp only [extract_signal_value, if_neg hd, hbe, Bool.false_eq_true, if_false]
      rw [if_pos hneg]
  · intro hsg h0
    by_cases hd : data.length = 0
    · simp [extract_signal_value, hd]
    · simp only [extract_signal_value, if_neg hd]
      by_cases hneg : (if s.is_little_endian then (s.start_bit : Int)
          else ((s.start_bit : Int) / 8) * 8 + (7 - (s.start_bit : Int) % 8)
            - (s.size : Int) + 1) < 0
      · rw [if_pos hneg]
      · rw [if_neg hneg, if_pos (by simp [hsg, h0])]
  · intro hne heff hdeg
    by_cases hle : s.is_little_endian = true
    · exact ⟨_, extract_signal_value_eq data s (s.start_bit : Int) (by rw [hle]; simp)
        (by simpa using hne) (Int.ofNat_nonneg s.start_bit) hdeg⟩
    · have hbe : s.is_little_endian = false := by
        cases hb : s.is_little_endian
        · rfl
        · exact absurd hb hle
      have hpos : 0 ≤ spec_effective_start s.start_bit s.size := by
        rcases heff with h | h
        · exact absurd h hle
        · exact h
      exact ⟨_, extract_signal_value_eq data s (spec_effective_start s.start_bit s.size)
        (by rw [hbe]; simp) (by simpa using hne) hpos hdeg⟩

/-- Witness for C8: an empty payload gives an absent result, and a
well-formed payload and signal give a present result. -/
theorem extract_signal_value_total_witness :
    extract_signal_value [] ⟨"Sig", 0, 8, true, false, 1, 0, 0, 0, ""⟩ = none
    ∧ ∃ q, extract_signal_value [7] ⟨"Sig", 0, 8, true, false, 1, 0, 0, 0, ""⟩ = some q :=
  ⟨(extract_signal_value_total [] ⟨"Sig", 0, 8, true, false, 1, 0, 0, 0, ""⟩).1 rfl,
    (extract_signal_value_total [7] ⟨"Sig", 0, 8, true, false, 1, 0, 0, 0, ""⟩).2.2.2
      (by decide) (Or.inl rfl) (Or.inl rfl)⟩

/-- C10: for every payload longer than 8 bytes and little-endian signal,
the zero-padding step is a no-op (the Python pad count 8 - len collapses to
zero bytes), the payload is not truncated, extraction operates over the
integer formed from all payload bytes in little-endian order, and the
result is present, not an error. -/
theorem extract_signal_value_long_payload (data : List Nat) (s : DBCSignal)
    (hlen : 8 < data.length) (hle : s.is_little_endian = true)
    (hdeg : s.is_signed = false ∨ 1 ≤ s.size) :
    pad_to_8 data = data ∧
    extract_signal_value data s = some
      ((spec_sign_extend s.is_signed s.size
        (spec_extract_bits (int_from_bytes_le data) s.start_bit s.size) : ℚ)
        * s.factor + s.offset) := by
  have hpad := pad_to_8_long data (by omega)
  refine ⟨hpad, ?_⟩
  have h := extract_signal_value_eq data s (s.start_bit : Int) (by rw [hle]; simp)
    (by omega) (Int.ofNat_nonneg s.start_bit) hdeg
  rw [h, hpad]
  simp [Int.toNat_ofNat]

/-- Witness for C10: a 9-byte payload whose ninth byte is 1 decodes a
signal at start bit 64 to the non-zero value 1, so bits at and beyond
bit 64 are reachable. -/
theorem extract_signal_value_long_payload_witness :
    extract_signal_value [0, 0, 0, 0, 0, 0, 0, 0, 1]
      ⟨"Sig", 64, 8, true, false, 1, 0, 0, 0, ""⟩ = some 1 := by
  have h := (extract_signal_value_long_payload [0, 0, 0, 0, 0, 0, 0, 0, 1]
    ⟨"Sig", 64, 8, true, false, 1, 0, 0, 0, ""⟩ (by decide) rfl (Or.inl rfl)).2
  rw [h]
  have hint : int_from_bytes_le [0, 0, 0, 0, 0, 0, 0, 0, 1] = 2 ^ 64 := by
    norm_num [int_from_bytes_le]
  have hval : (18446744073709551616 : Nat) >>> 64 &&& 255 = 1 := by decide
  norm_num [spec_extract_bits, spec_sign_extend, hint, hval]

/-! ## Claim theorem: DBC identifier classification. -/

/-- C3: in the DBC loader, a message line whose decimal identifier exceeds
2047 is classified extended; an identifier at or above 0x80000000 is masked
to its low 29 bits before storage and still classified extended; an
identifier below 0x80000000 is stored unmasked. -/
theorem parse_message_id_classification (raw : Nat) :
    (2047 < raw → (parse_message_id raw).2 = 1)
    ∧ (0x80000000 ≤ raw →
        (parse_message_id raw).1 = raw % 2 ^ 29 ∧ (parse_message_id raw).2 = 1)
    ∧ (raw < 0x80000000 → (parse_message_id raw).1 = raw) := by
  refine ⟨?_, ?_, ?_⟩
  · intro h
    simp [parse_message_id, h]
  · intro h
    have h2 : 2047 < raw := by omega
    refine ⟨?_, by simp [parse_message_id, h2]⟩
    simp only [parse_message_id, if_pos h]
    have hm : (0x1FFFFFFF : Nat) = 2 ^ 29 - 1 := by norm_num
    rw [hm, Nat.and_pow_two_sub_one_eq_mod]
  · intro h
    simp [parse_message_id, Nat.not_le.mpr h]

/-- Witness for C3, the testable-property instance: identifier 0x80000001
is stored as 0x00000001 with the extended flag set. -/
theorem parse_message_id_classification_witness :
    parse_message_id 0x80000001 = (1, 1) := by
  have h := (parse_message_id_classification 0x80000001).2.1 (by norm_num)
  have h1 : (parse_message_id 0x80000001).1 = 1 := by
    rw [h.1]
    norm_num
  have h2 := h.2
  rw [Prod.ext_iff]
  exact ⟨h1, h2⟩

/-! ## Claim theorem: composite definition match. -/

/-- C4: the membership test at source line 491 accepts exactly when the
catalog contains a message agreeing with the frame on identifier, extended
flag and declared DLC (so a frame agreeing on identifier alone but
differing in extended flag or DLC produces no match), and on a non-match
the frame loop increments no counter, sets no pulse flag, and (pulse
feature off, row already allocated) writes no cell. -/
theorem definition_match_iff_triple (msgs : List DBCMessage) (f : CANMessage) :
    (definition_match (dbc_parser_messages_ID msgs) f = true ↔
      ∃ m ∈ msgs, m.can_id = f.can_id ∧ m.extended = f.extended ∧ m.dlc = f.dlc)
    ∧ (definition_match (dbc_parser_messages_ID msgs) f = false →
        ∀ (st : setups) (sigs : List String) (cells : List (Option ℚ)) (rrow : Nat),
          ((process_frame st (dbc_parser_messages_ID msgs) sigs msgs cells rrow f).1.map
              DBCMessage.counter = msgs.map DBCMessage.counter)
          ∧ (st.msg_pulser_signal = true →
              ∀ m2 ∈ (process_frame st (dbc_parser_messages_ID msgs) sigs msgs cells rrow f).1,
                m2.pulse = false)
          ∧ (st.msg_pulser_signal = false →
              (process_frame st (dbc_parser_messages_ID msgs) sigs msgs cells rrow f).1 = msgs
              ∧ (rrow ≠ 0 →
                (process_frame st (dbc_parser_messages_ID msgs) sigs msgs cells rrow f).2.1
                  = cells))) := by
  constructor
  · constructor
    · intro h
      have hmem : message_key f.can_id f.extended f.dlc ∈ dbc_parser_messages_ID msgs :=
        of_decide_eq_true h
      rw [dbc_parser_messages_ID, List.mem_map] at hmem
      obtain ⟨m, hm, hkey⟩ := hmem
      have hinj := message_key_inj _ _ _ _ _ _ hkey
      exact ⟨m, hm, hinj.1, hinj.2.1, hinj.2.2⟩
    · intro ⟨m, hm, h1, h2, h3⟩
      apply decide_eq_true
      rw [dbc_parser_messages_ID, List.mem_map]
      exact ⟨m, hm, by rw [h1, h2, h3]⟩
  · intro hfalse st sigs cells rrow
    simp only [process_frame, hfalse, Bool.false_eq_true, if_false]
    refine ⟨?_, ?_, ?_⟩
    · by_cases hp : st.msg_pulser_signal = true
      · simp [hp, List.map_map]
      · simp [hp]
    · intro hp m2 hm2
      simp only [if_pos hp, List.mem_map] at hm2
      obtain ⟨m, _, hm⟩ := hm2
      rw [← hm]
    · intro hp
      constructor
      · simp [hp]
      · intro hr
        simp [hp, hr]

/-- Witness for C4: a catalog message with identifier 1282, standard flag
and DLC 8, against a frame with the same identifier but the extended flag
set: no match, and the counter is untouched. -/
theorem definition_match_iff_triple_witness :
    definition_match
        (dbc_parser_messages_ID [⟨1282, 0, "EEC1", 8, [], 0, false⟩])
        ⟨"t1", "Rx", 0, 1282, 1, 8, []⟩ = false
    ∧ (process_frame ⟨true, false, false⟩
        (dbc_parser_messages_ID [⟨1282, 0, "EEC1", 8, [], 0, false⟩])
        ["x"] [⟨1282, 0, "EEC1", 8, [], 0, false⟩] [none] 5
        ⟨"t1", "Rx", 0, 1282, 1, 8, []⟩).1.map DBCMessage.counter
        = [0] := by
  have hfalse : definition_match
      (dbc_parser_messages_ID [⟨1282, 0, "EEC1", 8, [], 0, false⟩])
      ⟨"t1", "Rx", 0, 1282, 1, 8, []⟩ = false := by decide
  refine ⟨hfalse, ?_⟩
  have h := ((definition_match_iff_triple [⟨1282, 0, "EEC1", 8, [], 0, false⟩]
    ⟨"t1", "Rx", 0, 1282, 1, 8, []⟩).2 hfalse ⟨true, false, false⟩ ["x"] [none] 5).1
  rw [h]
  rfl

/-! ## Claim theorem: output column set. -/

/-- C9: the output column list is the lexicographically sorted,
deduplicated union of the collected signal-derived column names (plus the
optional counter and pulser columns), it is invariant under any reordering
of the collected names (so it does not depend on the iteration order of the
internal set), and the header is this list with the time column prepended;
it is computed from the catalog alone, before any row is emitted. -/
theorem output_columns_sorted_dedup_deterministic (st : setups) (msgs : List DBCMessage)
    (l : List String) (hperm : List.Perm l (collected_signal_names st msgs)) :
    pysorted l.dedup = all_signals st msgs
    ∧ List.Sorted pyle (all_signals st msgs)
    ∧ (all_signals st msgs).Nodup
    ∧ (∀ x, x ∈ all_signals st msgs ↔ x ∈ collected_signal_names st msgs)
    ∧ csv_header st msgs = "time" :: all_signals st msgs := by
  have hsorted1 : List.Sorted pyle (pysorted l.dedup) :=
    List.sorted_insertionSort pyle _
  have hsorted2 : List.Sorted pyle (all_signals st msgs) :=
    List.sorted_insertionSort pyle _
  have hp : List.Perm (pysorted l.dedup) (all_signals st msgs) := by
    refine (List.perm_insertionSort pyle _).trans ?_
    exact (hperm.dedup).trans (List.perm_insertionSort pyle _).symm
  refine ⟨List.eq_of_perm_of_sorted hp hsorted1 hsorted2, hsorted2, ?_, ?_, rfl⟩
  · exact (List.perm_insertionSort pyle _).symm.nodup
      (List.nodup_dedup (collected_signal_names st msgs))
  · intro x
    rw [all_signals, pysorted]
    rw [(List.perm_insertionSort pyle _).mem_iff]
    exact List.mem_dedup

/-- Witness for C9: two catalog messages whose bare signal names overlap;
a reordered copy of the collected names sorts and deduplicates to the same
column list. -/
theorem output_columns_sorted_dedup_deterministic_witness :
    List.Perm ["Spd", "Alt", "Spd"]
      (collected_signal_names ⟨true, false, false⟩
        [⟨1, 0, "M1", 8, [("Spd", ⟨"Spd", 0, 8, true, false, 1, 0, 0, 0, ""⟩),
            ("Alt", ⟨"Alt", 8, 8, true, false, 1, 0, 0, 0, ""⟩)], 0, false⟩,
          ⟨2, 0, "M2", 8, [("Spd", ⟨"Spd", 0, 8, true, false, 1, 0, 0, 0, ""⟩)], 0, false⟩])
    ∧ pysorted (["Spd", "Alt", "Spd"]).dedup =
        all_signals ⟨true, false, false⟩
          [⟨1, 0, "M1", 8, [("Spd", ⟨"Spd", 0, 8, true, false, 1, 0, 0, 0, ""⟩),
              ("Alt", ⟨"Alt", 8, 8, true, false, 1, 0, 0, 0, ""⟩)], 0, false⟩,
            ⟨2, 0, "M2", 8, [("Spd", ⟨"Spd", 0, 8, true, false, 1, 0, 0, 0, ""⟩)], 0, false⟩] := by
  have hperm : List.Perm ["Spd", "Alt", "Spd"]
      (collected_signal_names ⟨true, false, false⟩
        [⟨1, 0, "M1", 8, [("Spd", ⟨"Spd", 0, 8, true, false, 1, 0, 0, 0, ""⟩),
            ("Alt", ⟨"Alt", 8, 8, true, false, 1, 0, 0, 0, ""⟩)], 0, false⟩,
          ⟨2, 0, "M2", 8, [("Spd", ⟨"Spd", 0, 8, true, false, 1, 0, 0, 0, ""⟩)], 0, false⟩]) := by
    decide
  exact ⟨hperm, (output_columns_sorted_dedup_deterministic ⟨true, false, false⟩ _ _ hperm).1⟩

/-! ## Claim theorem: DLC mismatch handling and row emission. -/

/-- Emitted row timestamps are exactly the frame timestamps, in order: the
frame loop writes one row per frame and always overwrites the time column
with the current frame timestamp. -/
theorem rows_loop_map_fst (st : setups) (keys sigs : List String) :
    ∀ (frames : List CANMessage) (msgs : List DBCMessage) (cells : List (Option ℚ))
      (rrow : Nat),
      (rows_loop st keys sigs msgs cells rrow frames).map Prod.fst
        = frames.map CANMessage.timestamp := by
  intro frames
  induction frames with
  | nil => intro msgs cells rrow; rfl
  | cons f fs ih =>
    intro msgs cells rrow
    simp only [rows_loop, List.map_cons, List.cons.injEq]
    exact ⟨trivial, ih _ _ _⟩

/-- C7: a frame whose decoded payload byte count differs from its declared
DLC gets a warning (the Bool returned by finalize_frame) but is still
produced, carrying the actual payload bytes and the declared DLC; and the
row assembler emits one row per frame, each carrying its frame timestamp,
so no frame is ever dropped. -/
theorem dlc_mismatch_frame_still_emitted :
    (∀ (timestamp direction : String) (channel can_id extended dlc : Nat)
        (data : List Nat), data.length ≠ dlc →
      (finalize_frame timestamp direction channel can_id extended dlc data).2 = true
      ∧ (finalize_frame timestamp direction channel can_id extended dlc data).1
          = ⟨timestamp, direction, channel, can_id, extended, dlc, data⟩)
    ∧ (∀ (st : setups) (msgs : List DBCMessage) (frames : List CANMessage),
        (convert_rows st msgs frames).length = frames.length
        ∧ (convert_rows st msgs frames).map Prod.fst
            = frames.map CANMessage.timestamp) := by
  constructor
  · intro timestamp direction channel can_id extended dlc data hmm
    exact ⟨decide_eq_true hmm, rfl⟩
  · intro st msgs frames
    have hmap := rows_loop_map_fst st (dbc_parser_messages_ID msgs)
      (all_signals st msgs) frames msgs [] 0
    constructor
    · have := congrArg List.length hmap
      simpa [convert_rows] using this
    · exact hmap

/-- Witness for C7: a declared DLC of 8 against a single-byte payload is
flagged but the frame is built with the actual byte, and a two-frame run
emits two rows with the two frame timestamps. -/
theorem dlc_mismatch_frame_still_emitted_witness :
    (finalize_frame "t1" "Rx" 0 1 0 8 [17]).2 = true
    ∧ (finalize_frame "t1" "Rx" 0 1 0 8 [17]).1.data = [17]
    ∧ (convert_rows ⟨true, false, false⟩ [⟨1, 0, "M", 8, [], 0, false⟩]
        [⟨"t1", "Rx", 0, 1, 0, 8, [17]⟩, ⟨"t2", "Rx", 0, 2, 0, 8, []⟩]).map Prod.fst
        = ["t1", "t2"] := by
  have h1 := (dlc_mismatch_frame_still_emitted.1 "t1" "Rx" 0 1 0 8 [17] (by decide))
  have h2 := (dlc_mismatch_frame_still_emitted.2 ⟨true, false, false⟩
    [⟨1, 0, "M", 8, [], 0, false⟩]
    [⟨"t1", "Rx", 0, 1, 0, 8, [17]⟩, ⟨"t2", "Rx", 0, 2, 0, 8, []⟩]).2
  refine ⟨h1.1, by rw [h1.2], ?_⟩
  rw [h2]
  rfl

/-! ## Claim evaluation: the carry-forward defect. -/

/-- C5 (code bug witnessed): with the counter column enabled and a catalog
message that has no signals, the rrow flag that gates row initialization
(source lines 468, 472 and 521) is still 0 after the first frame because it
is incremented per decoded signal, not per row; the second frame therefore
re-initializes the row to all-None and the counter value written in row 1
is dropped, although frame 2 matches nothing and touches no column: row 2
reads None in the counter column where carry-forward requires 1. -/
theorem carry_forward_counter_dropped :
    convert_rows ⟨true, true, false⟩ [⟨1, 0, "M", 0, [], 0, false⟩]
        [⟨"t1", "Rx", 0, 1, 0, 0, []⟩, ⟨"t2", "Rx", 0, 999, 0, 0, []⟩]
      = [("t1", [some 1]), ("t2", [none])]
    ∧ definition_match (dbc_parser_messages_ID [⟨1, 0, "M", 0, [], 0, false⟩])
        ⟨"t2", "Rx", 0, 999, 0, 0, []⟩ = false := by
  constructor
  · decide
  · decide

/-! ## Claim theorems: per-line exception behavior (CL2000 format). -/

/-- Counterexample for C6: the log line
2020/01/01-00:00:00.000;Rx;1A;DEAD matches the CL2000 line grammar (the
type field Rx is captured by the dot-plus group), yet the conversion
int(type-field) at source line 327 raises ValueError; parse_file has no
exception handler around its per-line code, so the exception escapes
per-line processing and aborts the run instead of skipping the line. -/
theorem cl2000_type_field_raises :
    cl2000_process 2020 1 1 0 0 0 0 "Rx" "1A" "DEAD"
      = Except.error "ValueError: invalid literal for int" := rfl

/-- C6 (amended): per-line processing of a CL2000-grammar line completes
without exception whenever its timestamp fields are in range, its type
field parses as a decimal integer literal, and its hex data field has even
length; a grammar-matching line violating one of these raises an exception
that escapes per-line processing (see the counterexample), so the original
no-exception guarantee only holds on such well-formed lines. -/
theorem cl2000_wellformed_line_no_exception (y mo d h mi s ms : Nat)
    (typ idstr datastr : String) (ts : String) (e : Int) (bs : List Nat)
    (hts : cl2000_timestamp? y mo d h mi s ms = some ts)
    (hint : pyint? typ = some e)
    (hhex : bytes_fromhex? (pystrip datastr).data = some bs) :
    cl2000_process y mo d h mi s ms typ idstr datastr
      = Except.ok (finalize_frame ts "Rx" 0 (int_base16 idstr.data) e.toNat
          ((pystrip datastr).data.length / 2) bs) := by
  simp only [cl2000_process, hts, hint, hhex]

/-- Witness for the amended C6: the line 2020/01/01-00:00:00.000;0;1A;DEAD
is converted without exception into a frame with identifier 0x1A, derived
DLC 2 and payload DE AD, and no mismatch warning. -/
theorem cl2000_wellformed_line_no_exception_witness :
    cl2000_process 2020 1 1 0 0 0 0 "0" "1A" "DEAD"
      = Except.ok (⟨"01.01.2020 00:00:00.000", "Rx", 0, 26, 0, 2, [222, 173]⟩, false) := by
  have h := cl2000_wellformed_line_no_exception 2020 1 1 0 0 0 0 "0" "1A" "DEAD"
    "01.01.2020 00:00:00.000" 0 [222, 173] rfl rfl rfl
  rw [h]
  rfl
